import Mathlib

/-
Verification of the layer-propagation core (include/layer.h): the
layer_base size/connect contract, weight initialization, Hessian scaling,
the sentinel input_layer, and the layers chain container.

Modelling conventions:
* float_t values are idealized as rationals; the weight-initialization
  bound 0.5/sqrt(fan_in) is stated over the reals.
* Layer objects live in an arena (a list of LayerState); the raw pointers
  next_/prev_/head_/tail_ are Option-valued arena indices.
* A thrown nn_error is modelled as an error flag returned next to the
  post-state, so that the state observable after the throw stays visible.
* uniform_rand and the updater are external collaborators (util.h,
  updater.h are not part of this core) and are modelled from the spec.
-/

namespace NN

/-- The state of one layer_base object: sizes, buffers and the structural
links next_/prev_ (arena indices standing for the raw pointers). -/
structure LayerState where
  in_size : Nat
  out_size : Nat
  next : Option Nat
  prev : Option Nat
  output : List ℚ
  prev_delta : List ℚ
  W : List ℚ
  b : List ℚ
  Whessian : List ℚ
  bhessian : List ℚ
  prev_delta2 : List ℚ
  deriving DecidableEq, Inhabited

/-- std::vector::resize n: keep the first n elements, pad with
value-initialized (zero) elements up to length n. -/
def vresize (v : List ℚ) (n : Nat) : List ℚ :=
  v.take n ++ List.replicate (n - v.length) 0

/-- layer_base::set_size: sets both sizes and resizes every buffer. -/
def set_size (in_dim out_dim weight_dim bias_dim : Nat) (st : LayerState) : LayerState :=
  { st with
    in_size := in_dim
    out_size := out_dim
    output := vresize st.output out_dim
    prev_delta := vresize st.prev_delta in_dim
    W := vresize st.W weight_dim
    b := vresize st.b bias_dim
    Whessian := vresize st.Whessian weight_dim
    bhessian := vresize st.bhessian bias_dim
    prev_delta2 := vresize st.prev_delta2 in_dim }

/-- The layer_base constructor: null links, then set_size on the
default-initialized (empty) buffers. -/
def mk_layer_base (in_dim out_dim weight_dim bias_dim : Nat) : LayerState :=
  set_size in_dim out_dim weight_dim bias_dim
    { in_size := 0, out_size := 0, next := none, prev := none,
      output := [], prev_delta := [], W := [], b := [],
      Whessian := [], bhessian := [], prev_delta2 := [] }

/-- layer_base::param_size: W_.size() + b_.size(). -/
def param_size (st : LayerState) : Nat :=
  st.W.length + st.b.length

/-- The one error condition thrown by this core
(nn_error("dimension mismatch")). -/
inductive NNError where
  | dimension_mismatch
  deriving DecidableEq

/-- Dereference an arena index (a layer_base pointer). -/
def getL (arena : List LayerState) (i : Nat) : LayerState :=
  arena.getD i default

/-- Write through an arena index. -/
def setL (arena : List LayerState) (i : Nat) (st : LayerState) : List LayerState :=
  arena.set i st

/-- layer_base::connect(tail): throws dimension mismatch (leaving the arena
untouched) when out_size() != 0 and tail->in_size() != out_size(); otherwise
sets this->next_ = tail and then tail->prev_ = this. -/
def connect (arena : List LayerState) (a tail : Nat) : Option NNError × List LayerState :=
  if (getL arena a).out_size ≠ 0 ∧ (getL arena tail).in_size ≠ (getL arena a).out_size then
    (some NNError.dimension_mismatch, arena)
  else
    let arena1 := setL arena a { getL arena a with next := some tail }
    let arena2 := setL arena1 tail { getL arena1 tail with prev := some a }
    (none, arena2)

/-- Modelled from the spec: uniform_rand (util.h, not part of this core)
fills a destination range of length n with consecutive draws from the
external random source, here an abstract stream rng consumed from offset
start. The caller-specified interval [-weight_base, weight_base] with
weight_base = 0.5/sqrt(fan_in_size()) constrains the source and appears as
a hypothesis on rng in the theorems. -/
def uniform_rand (rng : Nat → ℚ) (start n : Nat) : List ℚ :=
  (List.range n).map fun i => rng (start + i)

/-- layer_base::init_weight: redraws W_ and b_ from the random source and
zero-fills Whessian_ and bhessian_. -/
def init_weight (rng : Nat → ℚ) (st : LayerState) : LayerState :=
  { st with
    W := uniform_rand rng 0 st.W.length
    b := uniform_rand rng st.W.length st.b.length
    Whessian := List.replicate st.Whessian.length 0
    bhessian := List.replicate st.bhessian.length 0 }

/-- layer_base::divide_hessian: divides every Hessian entry by the
denominator, in place. -/
def divide_hessian (denominator : Int) (st : LayerState) : LayerState :=
  { st with
    Whessian := st.Whessian.map fun x => x / (denominator : ℚ)
    bhessian := st.bhessian.map fun x => x / (denominator : ℚ) }

/-- layer_base::reset: the default implementation just calls init_weight. -/
def reset (rng : Nat → ℚ) (st : LayerState) : LayerState :=
  init_weight rng st

/-- input_layer(): layer(0, 0, 0, 0). -/
def mk_input_layer : LayerState :=
  mk_layer_base 0 0 0 0

/-- Modelled from the spec: the external updater (updater.h, not part of
this core); only its identity is observable here, tracked as an invocation
count. -/
structure Updater where
  calls : Nat
  deriving DecidableEq

/-- input_layer::forward_propagation: copies in into output_, then forwards
in through next_ if a successor exists (dispatch maps a successor index to
its virtual forward_propagation), else returns output_. -/
def input_layer.forward_propagation (dispatch : Nat → List ℚ → List ℚ)
    (st : LayerState) (inp : List ℚ) : List ℚ × LayerState :=
  let st1 := { st with output := inp }
  match st1.next with
  | some nid => (dispatch nid inp, st1)
  | none => (st1.output, st1)

/-- input_layer::back_propagation: returns current_delta unchanged; the
layer state and the updater are untouched (the updater is never invoked). -/
def input_layer.back_propagation (st : LayerState) (current_delta : List ℚ)
    (u : Updater) : List ℚ × LayerState × Updater :=
  (current_delta, st, u)

/-- input_layer::back_propagation_2nd: returns current_delta2 unchanged. -/
def input_layer.back_propagation_2nd (st : LayerState)
    (current_delta2 : List ℚ) : List ℚ × LayerState :=
  (current_delta2, st)

/-- input_layer::connection_size: in_size_. -/
def input_layer.connection_size (st : LayerState) : Nat :=
  st.in_size

/-- input_layer::fan_in_size: the constant 1. -/
def input_layer.fan_in_size (_st : LayerState) : Nat :=
  1

/-- The layers container: the arena of layer objects plus the head_ and
tail_ pointers. -/
structure Layers where
  arena : List LayerState
  head : Option Nat
  tail : Option Nat
  deriving DecidableEq, Inhabited

/-- layers::add(new_tail): the new layer gets the next fresh arena index;
head_ is set if null, then the old tail (if any) is connected to the new
layer — a dimension mismatch there propagates, leaving tail_ (assigned only
after the connect returns) unchanged. -/
def layers.add (ls : Layers) (new_tail : LayerState) : Option NNError × Layers :=
  let n := ls.arena.length
  let arena0 := ls.arena ++ [new_tail]
  let head1 := if ls.head.isNone then some n else ls.head
  match ls.tail with
  | none => (none, { arena := arena0, head := head1, tail := some n })
  | some t =>
    match connect arena0 t n with
    | (some e, arena1) => (some e, { arena := arena1, head := head1, tail := ls.tail })
    | (none, arena1) => (none, { arena := arena1, head := head1, tail := some n })

/-- layers(): null head_/tail_, then add(&first_) with first_ the sentinel
input layer. -/
def mk_layers : Layers :=
  (layers.add { arena := [], head := none, tail := none } mk_input_layer).2

/-- layers::empty: head_ == 0. -/
def layers.empty (ls : Layers) : Bool :=
  ls.head.isNone

/-- The while loop of layers::reset: l->reset() then l = l->next_, with
fuel bounding the number of iterations of the pointer walk; visit k of the
walk resets with the stream rngs k. -/
def resetWalk (rngs : Nat → Nat → ℚ) (k fuel : Nat) (arena : List LayerState)
    (cur : Option Nat) : List LayerState :=
  match fuel with
  | 0 => arena
  | f + 1 =>
    match cur with
    | none => arena
    | some l =>
      let st1 := reset (rngs k) (getL arena l)
      resetWalk rngs (k + 1) f (setL arena l st1) st1.next

/-- layers::reset: walk the chain from head_, resetting every layer; the
arena size bounds the walk (enough fuel for any duplicate-free chain). -/
def layers.reset (rngs : Nat → Nat → ℚ) (ls : Layers) : Layers :=
  { ls with arena := resetWalk rngs 0 ls.arena.length ls.arena ls.head }

/-- The chain of arena indices reached by following next_ links from a
given pointer until null: the shape layers::reset traverses. -/
inductive ChainFrom (arena : List LayerState) : Option Nat → List Nat → Prop where
  | nil : ChainFrom arena none []
  | cons {l : Nat} {rest : List Nat} (hl : l < arena.length)
      (hrest : ChainFrom arena (getL arena l).next rest) :
      ChainFrom arena (some l) (l :: rest)

/-- The size bookkeeping of C8: param_size agrees with the buffer lengths
and output/delta/second-order-delta have out_size and in_size elements. -/
def SizeInv (st : LayerState) : Prop :=
  param_size st = st.W.length + st.b.length ∧
  st.output.length = st.out_size ∧
  st.prev_delta.length = st.in_size ∧
  st.prev_delta2.length = st.in_size

/-- Sample arena: the sentinel (out_size 0) next to a 3-in 2-out layer. -/
def cexArena : List LayerState :=
  [mk_input_layer, mk_layer_base 3 2 6 2]

/-- Sample arena: a 1-in 2-out layer next to a 2-in 1-out layer, so the
pair is dimension-compatible. -/
def okArena : List LayerState :=
  [mk_layer_base 1 2 2 2, mk_layer_base 2 1 2 1]

/-- Sample two-element chain, already wired 0 → 1. -/
def sampleChain : Layers :=
  { arena := [{ mk_input_layer with next := some 1 },
              { mk_layer_base 2 3 6 3 with prev := some 0 }],
    head := some 0, tail := some 1 }

/-- Sample container holding one 1-in 2-out layer as head and tail. -/
def sampleLayers : Layers :=
  { arena := [mk_layer_base 1 2 2 2], head := some 0, tail := some 0 }

/-- Sample layer whose in_size 3 mismatches the out_size 2 of the tail of
sampleLayers. -/
def mismatchLayer : LayerState :=
  mk_layer_base 3 1 3 1

theorem length_vresize (v : List ℚ) (n : Nat) : (vresize v n).length = n := by
  simp [vresize, List.length_take]
  omega

theorem length_setL (arena : List LayerState) (l : Nat) (st : LayerState) :
    (setL arena l st).length = arena.length := by
  simp [setL]

theorem getL_setL_self {arena : List LayerState} {l : Nat} (st : LayerState)
    (h : l < arena.length) : getL (setL arena l st) l = st := by
  simp [getL, setL, List.getD_eq_getElem?_getD, List.getElem?_set_self, h]

theorem getL_setL_ne {arena : List LayerState} {i l : Nat} (st : LayerState)
    (h : i ≠ l) : getL (setL arena l st) i = getL arena i := by
  simp [getL, setL, List.getD_eq_getElem?_getD, List.getElem?_set_ne (Ne.symm h)]

theorem reset_next (rng : Nat → ℚ) (st : LayerState) :
    (reset rng st).next = st.next := rfl

theorem chainFrom_det {arena : List LayerState} {c : Option Nat} {xs ys : List Nat}
    (hx : ChainFrom arena c xs) (hy : ChainFrom arena c ys) : xs = ys := by
  induction hx generalizing ys with
  | nil => cases hy; rfl
  | cons hl hrest ih =>
    cases hy with
    | cons hl2 hrest2 => rw [ih hrest2]

theorem chainFrom_mem {arena : List LayerState} {c : Option Nat} {ids : List Nat}
    (h : ChainFrom arena c ids) {l : Nat} (hm : l ∈ ids) :
    ∃ s, ChainFrom arena (some l) (l :: s) ∧ s.length + 1 ≤ ids.length := by
  induction h with
  | nil => cases hm
  | cons hl hrest ih =>
    rename_i l0 rest
    rcases List.mem_cons.mp hm with rfl | hmem
    · exact ⟨rest, ChainFrom.cons hl hrest, by simp⟩
    · obtain ⟨s, hs, hlen⟩ := ih hmem
      refine ⟨s, hs, ?_⟩
      simp only [List.length_cons]
      omega

theorem chainFrom_nodup {arena : List LayerState} {c : Option Nat} {ids : List Nat}
    (h : ChainFrom arena c ids) : ids.Nodup := by
  induction h with
  | nil => exact List.nodup_nil
  | cons hl hrest ih =>
    rename_i l rest
    refine List.nodup_cons.mpr ⟨?_, ih⟩
    intro hmem
    obtain ⟨s, hs, hlen⟩ := chainFrom_mem hrest hmem
    have heq : l :: rest = l :: s := chainFrom_det (ChainFrom.cons hl hrest) hs
    have hr : rest = s := by injection heq
    rw [hr] at hlen
    omega

theorem chainFrom_bounds {arena : List LayerState} {c : Option Nat} {ids : List Nat}
    (h : ChainFrom arena c ids) : ∀ l ∈ ids, l < arena.length := by
  induction h with
  | nil => intro l hl; cases hl
  | cons hl hrest ih =>
    intro x hx
    rcases List.mem_cons.mp hx with rfl | hmem
    · exact hl
    · exact ih x hmem

theorem chainFrom_length_le {arena : List LayerState} {c : Option Nat} {ids : List Nat}
    (h : ChainFrom arena c ids) : ids.length ≤ arena.length := by
  have hnd := chainFrom_nodup h
  have hb := chainFrom_bounds h
  calc ids.length = ids.toFinset.card := (List.toFinset_card_of_nodup hnd).symm
    _ ≤ (Finset.range arena.length).card := by
        refine Finset.card_le_card ?_
        intro x hx
        rw [List.mem_toFinset] at hx
        rw [Finset.mem_range]
        exact hb x hx
    _ = arena.length := Finset.card_range _

theorem chainFrom_congr {arena arena2 : List LayerState}
    (hlen : arena2.length = arena.length)
    (hnext : ∀ i, (getL arena2 i).next = (getL arena i).next)
    {c : Option Nat} {ids : List Nat}
    (h : ChainFrom arena c ids) : ChainFrom arena2 c ids := by
  induction h with
  | nil => exact ChainFrom.nil
  | cons hl hrest ih =>
    refine ChainFrom.cons (by omega) ?_
    rw [hnext]
    exact ih

theorem resetWalk_spec (rngs : Nat → Nat → ℚ) (k fuel : Nat)
    (arena : List LayerState) (c : Option Nat) (ids : List Nat)
    (hc : ChainFrom arena c ids) (hfuel : ids.length ≤ fuel) :
    (resetWalk rngs k fuel arena c).length = arena.length ∧
    (∀ m (hm : m < ids.length),
      getL (resetWalk rngs k fuel arena c) (ids.get ⟨m, hm⟩) =
        reset (rngs (k + m)) (getL arena (ids.get ⟨m, hm⟩))) ∧
    (∀ j, j ∉ ids → getL (resetWalk rngs k fuel arena c) j = getL arena j) := by
  induction ids generalizing k fuel arena c with
  | nil =>
    cases hc
    refine ⟨?_, ?_, ?_⟩
    · cases fuel <;> simp [resetWalk]
    · intro m hm; cases hm
    · intro j _; cases fuel <;> simp [resetWalk]
  | cons l rest ih =>
    cases hc with
    | cons hl hrest =>
      obtain ⟨f, rfl⟩ : ∃ f, fuel = f + 1 :=
        ⟨fuel - 1, by simp only [List.length_cons] at hfuel; omega⟩
      have hnodup : ¬ l ∈ rest := by
        have := chainFrom_nodup (ChainFrom.cons hl hrest)
        exact (List.nodup_cons.mp this).1
      have hstep : resetWalk rngs k (f + 1) arena (some l) =
          resetWalk rngs (k + 1) f
            (setL arena l (reset (rngs k) (getL arena l)))
            (reset (rngs k) (getL arena l)).next := rfl
      set st1 := reset (rngs k) (getL arena l) with hst1
      set arena1 := setL arena l st1 with harena1
      have hlen1 : arena1.length = arena.length := length_setL arena l st1
      have hnexts : ∀ i, (getL arena1 i).next = (getL arena i).next := by
        intro i
        by_cases hi : i = l
        · subst hi
          rw [harena1, getL_setL_self st1 hl, hst1, reset_next]
        · rw [harena1, getL_setL_ne st1 hi]
      have hc1 : ChainFrom arena1 (getL arena l).next rest :=
        chainFrom_congr hlen1 hnexts hrest
      have hst1next : st1.next = (getL arena l).next := reset_next _ _
      rw [hst1next] at hstep
      have hfuel1 : rest.length ≤ f := by
        simp only [List.length_cons] at hfuel; omega
      obtain ⟨ihlen, ihmem, ihout⟩ := ih (k + 1) f arena1 ((getL arena l).next) hc1 hfuel1
      refine ⟨?_, ?_, ?_⟩
      · rw [hstep, ihlen, hlen1]
      · intro m hm
        match m with
        | 0 =>
          have hgl : (l :: rest).get ⟨0, hm⟩ = l := rfl
          rw [hgl, hstep, ihout l hnodup, harena1, getL_setL_self st1 hl, hst1]
          simp
        | m + 1 =>
          have hm2 : m < rest.length := by
            simp only [List.length_cons] at hm; omega
          have hgl : (l :: rest).get ⟨m + 1, hm⟩ = rest.get ⟨m, hm2⟩ := rfl
          have hmem : rest.get ⟨m, hm2⟩ ∈ rest := List.get_mem rest m hm2
          have hne : rest.get ⟨m, hm2⟩ ≠ l := by
            intro hcontra
            exact hnodup (hcontra ▸ hmem)
          rw [hgl, hstep, ihmem m hm2, harena1, getL_setL_ne st1 hne]
          have harith : k + 1 + m = k + (m + 1) := by omega
          rw [harith]
      · intro j hj
        have hjl : j ≠ l := by
          intro hcontra
          exact hj (hcontra ▸ List.mem_cons_self l rest)
        have hjr : ¬ j ∈ rest := fun hmem => hj (List.mem_cons_of_mem l hmem)
        rw [hstep, ihout j hjr, harena1, getL_setL_ne st1 hjl]

/-- C1: for layers A (index a) and B (index b), connect raises the
dimension-mismatch error exactly when A.out_size ≠ 0 and
B.in_size ≠ A.out_size; when it raises, the arena (hence both links) is
untouched, and when it does not raise, A.next_ = B and B.prev_ = A. -/
theorem claim_C1 (arena : List LayerState) (a b : Nat)
    (ha : a < arena.length) (hb : b < arena.length) :
    ((connect arena a b).1 = some NNError.dimension_mismatch ↔
      ((getL arena a).out_size ≠ 0 ∧ (getL arena b).in_size ≠ (getL arena a).out_size)) ∧
    ((connect arena a b).1 ≠ none → (connect arena a b).2 = arena) ∧
    ((connect arena a b).1 = none →
      (getL (connect arena a b).2 a).next = some b ∧
      (getL (connect arena a b).2 b).prev = some a) := by
  by_cases hcond :
      (getL arena a).out_size ≠ 0 ∧ (getL arena b).in_size ≠ (getL arena a).out_size
  · refine ⟨by simp [connect, hcond], by simp [connect, hcond], ?_⟩
    intro habs
    rw [show (connect arena a b).1 = some NNError.dimension_mismatch by
      simp [connect, hcond]] at habs
    cases habs
  · have hshape : connect arena a b =
        (none,
          setL (setL arena a { getL arena a with next := some b }) b
            { getL (setL arena a { getL arena a with next := some b }) b with
              prev := some a }) := by
      simp [connect, hcond]
    refine ⟨by rw [hshape]; simpa using hcond, by rw [hshape]; simp, ?_⟩
    intro _
    rw [hshape]
    by_cases hab : a = b
    · subst hab
      have hlen1 : a < (setL arena a { getL arena a with next := some a }).length := by
        rw [length_setL]; exact ha
      rw [getL_setL_self _ hlen1, getL_setL_self _ ha]
      exact ⟨rfl, rfl⟩
    · have hlen1 : b < (setL arena a { getL arena a with next := some b }).length := by
        rw [length_setL]; exact hb
      constructor
      · rw [getL_setL_ne _ hab, getL_setL_self _ ha]
      · rw [getL_setL_self _ hlen1]

/-- C1 witness: on okArena the guard fails (sizes agree), so connect links
layer 0 to layer 1. -/
theorem claim_C1_witness :
    0 < okArena.length ∧ 1 < okArena.length ∧
    (((connect okArena 0 1).1 = some NNError.dimension_mismatch ↔
      ((getL okArena 0).out_size ≠ 0 ∧ (getL okArena 1).in_size ≠ (getL okArena 0).out_size)) ∧
    ((connect okArena 0 1).1 ≠ none → (connect okArena 0 1).2 = okArena) ∧
    ((connect okArena 0 1).1 = none →
      (getL (connect okArena 0 1).2 0).next = some 1 ∧
      (getL (connect okArena 0 1).2 1).prev = some 0)) :=
  ⟨by decide, by decide, claim_C1 okArena 0 1 (by decide) (by decide)⟩

/-- C2 counterexample: connecting the sentinel (out_size 0) to a layer with
in_size 3 succeeds, yet afterwards the sentinel's out_size is still 0, not
3 — connect never resizes the sentinel. -/
theorem claim_C2_cex :
    (connect cexArena 0 1).1 = none ∧
    (getL (connect cexArena 0 1).2 0).out_size ≠ (getL (connect cexArena 0 1).2 1).in_size := by
  decide

/-- C2 (amended): when connect succeeds both sizes are left unchanged and
B.prev_ = A; the equality A.out_size = B.in_size afterwards holds whenever
A.out_size ≠ 0, while a sentinel with out_size 0 keeps out_size 0. -/
theorem claim_C2 (arena : List LayerState) (a b : Nat)
    (ha : a < arena.length) (hb : b < arena.length)
    (hok : (connect arena a b).1 = none) :
    (getL (connect arena a b).2 a).out_size = (getL arena a).out_size ∧
    (getL (connect arena a b).2 b).in_size = (getL arena b).in_size ∧
    ((getL arena a).out_size ≠ 0 →
      (getL (connect arena a b).2 a).out_size = (getL (connect arena a b).2 b).in_size) ∧
    (getL (connect arena a b).2 b).prev = some a := by
  by_cases hcond :
      (getL arena a).out_size ≠ 0 ∧ (getL arena b).in_size ≠ (getL arena a).out_size
  · rw [show (connect arena a b).1 = some NNError.dimension_mismatch by
      simp [connect, hcond]] at hok
    cases hok
  · have hshape : connect arena a b =
        (none,
          setL (setL arena a { getL arena a with next := some b }) b
            { getL (setL arena a { getL arena a with next := some b }) b with
              prev := some a }) := by
      simp [connect, hcond]
    have hsizes : (getL (connect arena a b).2 a).out_size = (getL arena a).out_size ∧
        (getL (connect arena a b).2 b).in_size = (getL arena b).in_size ∧
        (getL (connect arena a b).2 b).prev = some a := by
      rw [hshape]
      by_cases hab : a = b
      · subst hab
        have hlen1 : a < (setL arena a { getL arena a with next := some a }).length := by
          rw [length_setL]; exact ha
        rw [getL_setL_self _ hlen1, getL_setL_self _ ha]
        exact ⟨rfl, rfl, rfl⟩
      · have hlen1 : b < (setL arena a { getL arena a with next := some b }).length := by
          rw [length_setL]; exact hb
        rw [getL_setL_self _ hlen1, getL_setL_ne _ hab, getL_setL_self _ ha,
          getL_setL_ne _ (Ne.symm hab)]
        exact ⟨rfl, rfl, rfl⟩
    refine ⟨hsizes.1, hsizes.2.1, ?_, hsizes.2.2⟩
    intro hnz
    rw [hsizes.1, hsizes.2.1]
    rcases not_and_or.mp hcond with hc | hc
    · exact absurd hnz (by simpa using hc)
    · exact (not_not.mp hc).symm

/-- C2 witness: the compatible pair of okArena, where connect succeeds with
a nonzero out_size. -/
theorem claim_C2_witness :
    0 < okArena.length ∧ 1 < okArena.length ∧ (connect okArena 0 1).1 = none ∧
    ((getL (connect okArena 0 1).2 0).out_size = (getL okArena 0).out_size ∧
    (getL (connect okArena 0 1).2 1).in_size = (getL okArena 1).in_size ∧
    ((getL okArena 0).out_size ≠ 0 →
      (getL (connect okArena 0 1).2 0).out_size = (getL (connect okArena 0 1).2 1).in_size) ∧
    (getL (connect okArena 0 1).2 1).prev = some 0) :=
  ⟨by decide, by decide, by decide,
    claim_C2 okArena 0 1 (by decide) (by decide) (by decide)⟩

/-- C3: with a positive fan_in_size, after init_weight (from any prior
state) every weight and bias entry lies within [-w, w] for
w = 0.5/sqrt(fan_in_size()) — the interval the random source is called
with — both Hessian buffers are all zero, and the resulting parameters
depend only on the buffer lengths, never on the prior parameter values. -/
theorem claim_C3 (st : LayerState) (rng : Nat → ℚ) (fanIn : Nat)
    (hpos : 0 < fanIn)
    (hrng : ∀ i, |(rng i : ℝ)| ≤ 0.5 / Real.sqrt fanIn) :
    (∀ x ∈ (init_weight rng st).W, |(x : ℝ)| ≤ 0.5 / Real.sqrt fanIn) ∧
    (∀ x ∈ (init_weight rng st).b, |(x : ℝ)| ≤ 0.5 / Real.sqrt fanIn) ∧
    (∀ x ∈ (init_weight rng st).Whessian, x = 0) ∧
    (∀ x ∈ (init_weight rng st).bhessian, x = 0) ∧
    (∀ st2 : LayerState, st2.W.length = st.W.length → st2.b.length = st.b.length →
      st2.Whessian.length = st.Whessian.length → st2.bhessian.length = st.bhessian.length →
      (init_weight rng st2).W = (init_weight rng st).W ∧
      (init_weight rng st2).b = (init_weight rng st).b ∧
      (init_weight rng st2).Whessian = (init_weight rng st).Whessian ∧
      (init_weight rng st2).bhessian = (init_weight rng st).bhessian) := by
  refine ⟨?_, ?_, ?_, ?_, ?_⟩
  · intro x hx
    simp only [init_weight, uniform_rand, List.mem_map, List.mem_range] at hx
    obtain ⟨i, _, rfl⟩ := hx
    exact hrng _
  · intro x hx
    simp only [init_weight, uniform_rand, List.mem_map, List.mem_range] at hx
    obtain ⟨i, _, rfl⟩ := hx
    exact hrng _
  · intro x hx
    simp only [init_weight] at hx
    exact (List.eq_of_mem_replicate hx)
  · intro x hx
    simp only [init_weight] at hx
    exact (List.eq_of_mem_replicate hx)
  · intro st2 hW hb hWh hbh
    refine ⟨?_, ?_, ?_, ?_⟩ <;> simp [init_weight, uniform_rand, hW, hb, hWh, hbh]

/-- C3 witness: a 1-1-1-1 layer with fan-in 1 and the constant-zero random
source, which respects the interval [-0.5, 0.5]. -/
theorem claim_C3_witness :
    0 < 1 ∧ (∀ i : Nat, |(((fun _ => (0 : ℚ)) i : ℚ) : ℝ)| ≤ 0.5 / Real.sqrt ((1 : Nat) : ℝ)) ∧
    ((∀ x ∈ (init_weight (fun _ => 0) (mk_layer_base 1 1 1 1)).W,
        |(x : ℝ)| ≤ 0.5 / Real.sqrt ((1 : Nat) : ℝ)) ∧
     (∀ x ∈ (init_weight (fun _ => 0) (mk_layer_base 1 1 1 1)).b,
        |(x : ℝ)| ≤ 0.5 / Real.sqrt ((1 : Nat) : ℝ)) ∧
     (∀ x ∈ (init_weight (fun _ => 0) (mk_layer_base 1 1 1 1)).Whessian, x = 0) ∧
     (∀ x ∈ (init_weight (fun _ => 0) (mk_layer_base 1 1 1 1)).bhessian, x = 0) ∧
     (∀ st2 : LayerState,
       st2.W.length = (mk_layer_base 1 1 1 1).W.length →
       st2.b.length = (mk_layer_base 1 1 1 1).b.length →
       st2.Whessian.length = (mk_layer_base 1 1 1 1).Whessian.length →
       st2.bhessian.length = (mk_layer_base 1 1 1 1).bhessian.length →
       (init_weight (fun _ => 0) st2).W = (init_weight (fun _ => 0) (mk_layer_base 1 1 1 1)).W ∧
       (init_weight (fun _ => 0) st2).b = (init_weight (fun _ => 0) (mk_layer_base 1 1 1 1)).b ∧
       (init_weight (fun _ => 0) st2).Whessian =
         (init_weight (fun _ => 0) (mk_layer_base 1 1 1 1)).Whessian ∧
       (init_weight (fun _ => 0) st2).bhessian =
         (init_weight (fun _ => 0) (mk_layer_base 1 1 1 1)).bhessian)) :=
  ⟨by decide,
   fun i => by rw [Nat.cast_one, Real.sqrt_one]; norm_num,
   claim_C3 (mk_layer_base 1 1 1 1) (fun _ => 0) 1 (by decide)
     (fun i => by rw [Nat.cast_one, Real.sqrt_one]; norm_num)⟩

/-- C4: a standalone sentinel (next_ null): forward_propagation returns the
input and stores it in output_; back_propagation returns the delta
unchanged, touching neither the layer nor the updater (zero invocations);
back_propagation_2nd returns the second-order delta unchanged. -/
theorem claim_C4 (st : LayerState) (hst : st.next = none)
    (dispatch : Nat → List ℚ → List ℚ) (v d d2 : List ℚ) (u : Updater) :
    (input_layer.forward_propagation dispatch st v).1 = v ∧
    ((input_layer.forward_propagation dispatch st v).2).output = v ∧
    input_layer.back_propagation st d u = (d, st, u) ∧
    input_layer.back_propagation_2nd st d2 = (d2, st) := by
  refine ⟨?_, ?_, rfl, rfl⟩ <;>
    simp [input_layer.forward_propagation, hst]

/-- C4 witness: the freshly constructed sentinel and a 2-element input. -/
theorem claim_C4_witness :
    mk_input_layer.next = none ∧
    ((input_layer.forward_propagation (fun _ x => x) mk_input_layer [1, 2]).1 = [1, 2] ∧
     ((input_layer.forward_propagation (fun _ x => x) mk_input_layer [1, 2]).2).output = [1, 2] ∧
     input_layer.back_propagation mk_input_layer [3] ⟨0⟩ = ([3], mk_input_layer, ⟨0⟩) ∧
     input_layer.back_propagation_2nd mk_input_layer [4] = ([4], mk_input_layer)) :=
  ⟨by decide,
   claim_C4 mk_input_layer (by decide) (fun _ x => x) [1, 2] [3] [4] ⟨0⟩⟩

/-- C6: divide_hessian n maps every Hessian entry x to x / n in place and
leaves every other field of the layer — weights, biases, output, deltas,
sizes and the structural links — unchanged. -/
theorem claim_C6 (st : LayerState) (n : Int) (hn : n ≠ 0) :
    ((divide_hessian n st).Whessian.length = st.Whessian.length ∧
     (∀ m : Nat, (divide_hessian n st).Whessian[m]? =
        (st.Whessian[m]?).map fun x => x / (n : ℚ)) ∧
     (divide_hessian n st).bhessian.length = st.bhessian.length ∧
     (∀ m : Nat, (divide_hessian n st).bhessian[m]? =
        (st.bhessian[m]?).map fun x => x / (n : ℚ))) ∧
    ((divide_hessian n st).W = st.W ∧
     (divide_hessian n st).b = st.b ∧
     (divide_hessian n st).output = st.output ∧
     (divide_hessian n st).prev_delta = st.prev_delta ∧
     (divide_hessian n st).prev_delta2 = st.prev_delta2 ∧
     (divide_hessian n st).in_size = st.in_size ∧
     (divide_hessian n st).out_size = st.out_size ∧
     (divide_hessian n st).next = st.next ∧
     (divide_hessian n st).prev = st.prev) := by
  refine ⟨⟨?_, ?_, ?_, ?_⟩, rfl, rfl, rfl, rfl, rfl, rfl, rfl, rfl, rfl⟩ <;>
    simp [divide_hessian]

/-- C6 witness: halving the Hessians of a layer that carries one weight
and one bias. -/
theorem claim_C6_witness :
    (2 : Int) ≠ 0 ∧
    (((divide_hessian 2 (mk_layer_base 1 1 1 1)).Whessian.length =
        (mk_layer_base 1 1 1 1).Whessian.length ∧
      (∀ m : Nat, (divide_hessian 2 (mk_layer_base 1 1 1 1)).Whessian[m]? =
        ((mk_layer_base 1 1 1 1).Whessian[m]?).map fun x => x / ((2 : Int) : ℚ)) ∧
      (divide_hessian 2 (mk_layer_base 1 1 1 1)).bhessian.length =
        (mk_layer_base 1 1 1 1).bhessian.length ∧
      (∀ m : Nat, (divide_hessian 2 (mk_layer_base 1 1 1 1)).bhessian[m]? =
        ((mk_layer_base 1 1 1 1).bhessian[m]?).map fun x => x / ((2 : Int) : ℚ))) ∧
     ((divide_hessian 2 (mk_layer_base 1 1 1 1)).W = (mk_layer_base 1 1 1 1).W ∧
      (divide_hessian 2 (mk_layer_base 1 1 1 1)).b = (mk_layer_base 1 1 1 1).b ∧
      (divide_hessian 2 (mk_layer_base 1 1 1 1)).output = (mk_layer_base 1 1 1 1).output ∧
      (divide_hessian 2 (mk_layer_base 1 1 1 1)).prev_delta =
        (mk_layer_base 1 1 1 1).prev_delta ∧
      (divide_hessian 2 (mk_layer_base 1 1 1 1)).prev_delta2 =
        (mk_layer_base 1 1 1 1).prev_delta2 ∧
      (divide_hessian 2 (mk_layer_base 1 1 1 1)).in_size = (mk_layer_base 1 1 1 1).in_size ∧
      (divide_hessian 2 (mk_layer_base 1 1 1 1)).out_size = (mk_layer_base 1 1 1 1).out_size ∧
      (divide_hessian 2 (mk_layer_base 1 1 1 1)).next = (mk_layer_base 1 1 1 1).next ∧
      (divide_hessian 2 (mk_layer_base 1 1 1 1)).prev = (mk_layer_base 1 1 1 1).prev)) :=
  ⟨by decide, claim_C6 (mk_layer_base 1 1 1 1) 2 (by decide)⟩

/-- C7: init_weight zeroes both Hessian buffers, and dividing by 1 keeps
every entry zero. -/
theorem claim_C7 (st : LayerState) (rng : Nat → ℚ) :
    (∀ x ∈ (divide_hessian 1 (init_weight rng st)).Whessian, x = 0) ∧
    (∀ x ∈ (divide_hessian 1 (init_weight rng st)).bhessian, x = 0) := by
  constructor <;>
  · intro x hx
    simp only [divide_hessian, init_weight, List.mem_map] at hx
    obtain ⟨y, hy, rfl⟩ := hx
    rw [List.eq_of_mem_replicate hy]
    simp

/-- C9: the sentinel's fan_in_size is the constant 1 and its
connection_size is its in_size; in particular sqrt(fan_in_size()) is
nonzero, so init_weight's 0.5/sqrt(fan_in_size()) never divides by zero. -/
theorem claim_C9 (st : LayerState) :
    input_layer.fan_in_size st = 1 ∧
    input_layer.connection_size st = st.in_size ∧
    Real.sqrt (input_layer.fan_in_size st) ≠ 0 := by
  refine ⟨rfl, rfl, ?_⟩
  rw [show ((input_layer.fan_in_size st : ℕ) : ℝ) = 1 by norm_num [input_layer.fan_in_size],
    Real.sqrt_one]
  exact one_ne_zero

theorem getL_append_lt {A B : List LayerState} {t : Nat} (h : t < A.length) :
    getL (A ++ B) t = getL A t := by
  simp only [getL, List.getD_eq_getElem?_getD]
  rw [List.getElem?_append]
  simp [h]

theorem getL_append_len (A : List LayerState) (L : LayerState) :
    getL (A ++ [L]) A.length = L := by
  simp [getL, List.getD_eq_getElem?_getD]

theorem connect_cases (arena : List LayerState) (a b : Nat) :
    connect arena a b = (some NNError.dimension_mismatch, arena) ∨
    (connect arena a b).1 = none := by
  unfold connect
  split
  · exact Or.inl rfl
  · exact Or.inr rfl

theorem connect_shape (arena : List LayerState) (a b : Nat) :
    (connect arena a b).2 = arena ∨
    (connect arena a b).2 =
      setL (setL arena a { getL arena a with next := some b }) b
        { getL (setL arena a { getL arena a with next := some b }) b with
          prev := some a } := by
  unfold connect
  split
  · exact Or.inl rfl
  · exact Or.inr rfl

theorem sizeInv_setL (A : List LayerState) (st : LayerState) (l : Nat)
    (hA : ∀ j, SizeInv (getL A j)) (hst : SizeInv st) :
    ∀ j, SizeInv (getL (setL A l st) j) := by
  intro j
  by_cases hj : j = l
  · subst hj
    by_cases hl : j < A.length
    · rw [getL_setL_self _ hl]; exact hst
    · rw [setL, List.set_eq_of_length_le (by omega)]; exact hA j
  · rw [getL_setL_ne _ hj]; exact hA j

/-- C5: layers::reset on a chain of N ≥ 1 layers resets every chain layer
exactly once — the layer at chain position m ends as one reset with the
m-th draw of the walk, head to tail — leaves every other arena cell and
the head_/tail_ pointers untouched; and layer_base::reset is exactly
init_weight. -/
theorem claim_C5 (ls : Layers) (ids : List Nat) (rngs : Nat → Nat → ℚ)
    (hc : ChainFrom ls.arena ls.head ids) (hlen : 1 ≤ ids.length) :
    ((layers.reset rngs ls).arena.length = ls.arena.length) ∧
    (∀ m (hm : m < ids.length),
      getL (layers.reset rngs ls).arena (ids.get ⟨m, hm⟩) =
        reset (rngs m) (getL ls.arena (ids.get ⟨m, hm⟩))) ∧
    (∀ j, ¬ j ∈ ids → getL (layers.reset rngs ls).arena j = getL ls.arena j) ∧
    ((layers.reset rngs ls).head = ls.head) ∧
    ((layers.reset rngs ls).tail = ls.tail) ∧
    (∀ rng st, reset rng st = init_weight rng st) := by
  have hfuel : ids.length ≤ ls.arena.length := chainFrom_length_le hc
  obtain ⟨h1, h2, h3⟩ :=
    resetWalk_spec rngs 0 ls.arena.length ls.arena ls.head ids hc hfuel
  refine ⟨h1, ?_, h3, rfl, rfl, fun _ _ => rfl⟩
  intro m hm
  have hx := h2 m hm
  rw [Nat.zero_add] at hx
  exact hx

/-- C5 witness: the two-element chain sampleChain, with ids [0, 1]. -/
theorem claim_C5_witness :
    1 ≤ ([0, 1] : List Nat).length ∧
    (((layers.reset (fun _ _ => 0) sampleChain).arena.length = sampleChain.arena.length) ∧
     (∀ m (hm : m < ([0, 1] : List Nat).length),
       getL (layers.reset (fun _ _ => 0) sampleChain).arena (([0, 1] : List Nat).get ⟨m, hm⟩) =
         reset ((fun _ _ => (0 : ℚ)) m) (getL sampleChain.arena (([0, 1] : List Nat).get ⟨m, hm⟩))) ∧
     (∀ j, ¬ j ∈ ([0, 1] : List Nat) →
       getL (layers.reset (fun _ _ => 0) sampleChain).arena j = getL sampleChain.arena j) ∧
     ((layers.reset (fun _ _ => 0) sampleChain).head = sampleChain.head) ∧
     ((layers.reset (fun _ _ => 0) sampleChain).tail = sampleChain.tail) ∧
     (∀ rng st, reset rng st = init_weight rng st)) :=
  ⟨by decide,
   claim_C5 sampleChain [0, 1] (fun _ _ => 0)
     (by
       show ChainFrom sampleChain.arena (some 0) [0, 1]
       refine ChainFrom.cons (by decide) ?_
       rw [show (getL sampleChain.arena 0).next = some 1 from by decide]
       refine ChainFrom.cons (by decide) ?_
       rw [show (getL sampleChain.arena 1).next = none from by decide]
       exact ChainFrom.nil)
     (by decide)⟩

/-- C8: the size bookkeeping SizeInv — param_size = |W| + |b|,
|output| = out_size, |delta| = |prev_delta2| = in_size — holds after
construction and is preserved by init_weight, reset, divide_hessian and
connect (for every layer of the arena). -/
theorem claim_C8 :
    (∀ i o w bd, SizeInv (mk_layer_base i o w bd)) ∧
    (∀ rng st, SizeInv st → SizeInv (init_weight rng st)) ∧
    (∀ rng st, SizeInv st → SizeInv (reset rng st)) ∧
    (∀ n st, SizeInv st → SizeInv (divide_hessian n st)) ∧
    (∀ arena a b, (∀ j, SizeInv (getL arena j)) →
      ∀ j, SizeInv (getL (connect arena a b).2 j)) := by
  have hinit : ∀ (rng : Nat → ℚ) st, SizeInv st → SizeInv (init_weight rng st) := by
    intro rng st h
    obtain ⟨_, h2, h3, h4⟩ := h
    exact ⟨rfl, h2, h3, h4⟩
  refine ⟨?_, hinit, ?_, ?_, ?_⟩
  · intro i o w bd
    refine ⟨rfl, ?_, ?_, ?_⟩ <;>
      simp [mk_layer_base, set_size, length_vresize]
  · intro rng st h
    exact hinit rng st h
  · intro n st h
    obtain ⟨_, h2, h3, h4⟩ := h
    exact ⟨rfl, h2, h3, h4⟩
  · intro arena a b h
    rcases connect_shape arena a b with hc | hc
    · rw [hc]; exact h
    · rw [hc]
      have hA1 : SizeInv { getL arena a with next := some b } := h a
      have hmid := sizeInv_setL arena { getL arena a with next := some b } a h hA1
      have hB1 : SizeInv
          { getL (setL arena a { getL arena a with next := some b }) b with
            prev := some a } := hmid b
      exact sizeInv_setL _ _ b hmid hB1

/-- C8 witness: a 1-2-3-4 layer straight after construction and after one
init_weight. -/
theorem claim_C8_witness :
    SizeInv (mk_layer_base 1 2 3 4) ∧
    SizeInv (init_weight (fun _ => 0) (mk_layer_base 1 2 3 4)) :=
  ⟨claim_C8.1 1 2 3 4,
   claim_C8.2.1 (fun _ => 0) (mk_layer_base 1 2 3 4) (claim_C8.1 1 2 3 4)⟩

/-- C10: on a non-empty chain, a failing layers::add leaves head_ and
tail_ unchanged, the old tail's cell untouched, the new layer unlinked
(its cell in the grown arena is exactly the layer passed in), and the
propagated error is the dimension mismatch thrown by connect. -/
theorem claim_C10 (ls : Layers) (L : LayerState) (hne : ls.head.isSome = true)
    (e : NNError) (ls2 : Layers)
    (herr : layers.add ls L = (some e, ls2)) :
    e = NNError.dimension_mismatch ∧
    ls2.head = ls.head ∧
    ls2.tail = ls.tail ∧
    (∀ t, ls.tail = some t → t < ls.arena.length →
      getL ls2.arena t = getL ls.arena t) ∧
    getL ls2.arena ls.arena.length = L := by
  obtain ⟨v, hv⟩ := Option.isSome_iff_exists.mp hne
  have hno : ls.head.isNone = false := by rw [hv]; rfl
  cases htail : ls.tail with
  | none =>
    rw [layers.add, htail] at herr
    simp at herr
  | some t =>
    rcases connect_cases (ls.arena ++ [L]) t ls.arena.length with hc | hc
    · have hadd : layers.add ls L =
          (some NNError.dimension_mismatch,
            { arena := ls.arena ++ [L], head := ls.head, tail := ls.tail }) := by
        simp [layers.add, htail, hc, hno]
      rw [hadd] at herr
      injection herr with h1 hls2
      injection h1 with h1
      subst hls2
      refine ⟨h1.symm, rfl, htail, ?_, ?_⟩
      · intro u hu hlt
        have hut : u = t := by
          injection hu with hw
          exact hw.symm
        subst hut
        exact getL_append_lt hlt
      · exact getL_append_len ls.arena L
    · rcases hcp : connect (ls.arena ++ [L]) t ls.arena.length with ⟨err, arena1⟩
      rw [hcp] at hc
      simp only at hc
      subst hc
      have hadd : (layers.add ls L).1 = none := by
        simp [layers.add, htail, hcp]
      rw [herr] at hadd
      cases hadd

/-- C10 witness: adding a 3-in layer after a 2-out tail fails and mutates
nothing. -/
theorem claim_C10_witness :
    sampleLayers.head.isSome = true ∧
    layers.add sampleLayers mismatchLayer =
      (some NNError.dimension_mismatch, (layers.add sampleLayers mismatchLayer).2) ∧
    (NNError.dimension_mismatch = NNError.dimension_mismatch ∧
     (layers.add sampleLayers mismatchLayer).2.head = sampleLayers.head ∧
     (layers.add sampleLayers mismatchLayer).2.tail = sampleLayers.tail ∧
     (∀ t, sampleLayers.tail = some t → t < sampleLayers.arena.length →
       getL (layers.add sampleLayers mismatchLayer).2.arena t = getL sampleLayers.arena t) ∧
     getL (layers.add sampleLayers mismatchLayer).2.arena sampleLayers.arena.length =
       mismatchLayer) :=
  ⟨by decide, by decide,
   claim_C10 sampleLayers mismatchLayer (by decide) NNError.dimension_mismatch
     (layers.add sampleLayers mismatchLayer).2 (by decide)⟩

end NN
